import Mathlib

/-!
Verification of the request-dispatch gateway (`src/server.rs`, `src/serverfn.rs`,
`src/lib.rs`): header merge-back, redirect heuristic, panic isolation,
route-registration dedup, render response assembly and error mapping, and the
static-asset cache policy.  Definitions are shallow embeddings of the Rust
source; header names are the lowercase strings used by the `http` crate.
-/

namespace DioxusCF

set_option autoImplicit false

/-! ### Model of `http::HeaderMap`

A `HeaderMap` is a multimap from header names to nonempty value lists.  We
represent it as an association list from a name to its values, in entry order.
The observable contract of the `http` crate that the source relies on:
`get` returns the first value of a name, `insert` replaces all values of a
name with the single given one, `append` adds a value at the end of a name's
value list, and `extend`-ing one map with another walks the other map's
entries, `insert`-ing the first value of each entry and `append`-ing the rest
(so same-name values of the receiver are replaced, not kept).
-/

abbrev HeaderMap := List (String × List String)

/-- All values stored for name `k`, in order (`http::HeaderMap::get_all`). -/
def getAll : HeaderMap → String → List String
  | [], _ => []
  | e :: rest, k => (if e.1 == k then e.2 else []) ++ getAll rest k

/-- First value stored for name `k` (`http::HeaderMap::get`). -/
def hGet (m : HeaderMap) (k : String) : Option String :=
  (getAll m k).head?

/-- Drop every entry for name `k`. -/
def removeKey (m : HeaderMap) (k : String) : HeaderMap :=
  m.filter (fun e => !(e.1 == k))

/-- `http::HeaderMap::insert`: replace all values of `k` by the single `v`. -/
def insertH (m : HeaderMap) (k v : String) : HeaderMap :=
  removeKey m k ++ [(k, [v])]

/-- `http::HeaderMap::append`: add `v` at the end of the values of `k`. -/
def appendH : HeaderMap → String → String → HeaderMap
  | [], k, v => [(k, [v])]
  | e :: rest, k, v =>
    if e.1 == k then (e.1, e.2 ++ [v]) :: rest else e :: appendH rest k v

/-- One step of `HeaderMap::extend`: consume one entry of the other map
(first value via `insert`, remaining values via `append`). -/
def extendEntry (self : HeaderMap) (k : String) : List String → HeaderMap
  | [] => self
  | v :: vs => vs.foldl (fun acc w => appendH acc k w) (insertH self k v)

/-- `http`'s `Extend<(Option<HeaderName>, T)> for HeaderMap`: iterate the
other map's entries; the first value of each name replaces the receiver's
values for that name, subsequent values of the same name are appended. -/
def extendH (self : HeaderMap) : HeaderMap → HeaderMap
  | [] => self
  | e :: rest => extendH (extendEntry self e.1 e.2) rest

/-- Well-formedness of a header map: distinct names. -/
def keysNodup (m : HeaderMap) : Prop := (m.map Prod.fst).Nodup

instance (m : HeaderMap) : Decidable (keysNodup m) := by
  unfold keysNodup; exact List.nodupDecidable _

/-! ### String helpers used by the source -/

/-- `str::contains(pat)` of Rust: `pat` occurs as a contiguous subsequence. -/
def containsSub (pat : List Char) : List Char → Bool
  | [] => pat.isEmpty
  | c :: rest => pat.isPrefixOf (c :: rest) || containsSub pat rest

/-- Rust `str::rsplit_once(pat)`: split at the last occurrence of `pat`,
returning the part before and the part after it. -/
def rsplitOnceList (pat : List Char) : List Char → Option (List Char × List Char)
  | [] => none
  | c :: rest =>
    match rsplitOnceList pat rest with
    | some (pre, post) => some (c :: pre, post)
    | none =>
      if pat.isPrefixOf (c :: rest) then some ([], (c :: rest).drop pat.length)
      else none

/-- Rust `char::is_ascii_hexdigit`. -/
def isAsciiHexdigit (c : Char) : Bool :=
  c.isDigit || (('a' ≤ c) && (c ≤ 'f')) || (('A' ≤ c) && (c ≤ 'F'))

/-! ### Model of the native server-function pipeline (`src/serverfn.rs`)

`make_handler_native` runs the handler pinned to a worker; inside the context
scope it merges the context's accumulated outbound headers into the handler's
response with `HeaderMap::extend` and then applies the redirect heuristic.
The dispatch result of `spawn_pinned` is modelled as `Except`: `.error` is an
abnormal termination (panic) of the pinned unit, carrying the join error's
display text.
-/

/-- An HTTP response: status code, headers, body. -/
structure Resp where
  status : Nat
  headers : HeaderMap
  body : String
deriving DecidableEq, Repr

/-- Header merge-back (`serverfn.rs` lines 116-119): take the context's
outbound headers and, if present, `extend` the handler response's headers
with them.  `ctx = none` models `take_response_headers()` returning `None`.

The outbound accumulator itself lives in `dioxus_fullstack_core`; modelled
from the spec as a header-multimap (`HeaderMap`), which is also the type the
`extend` call in the source requires.  -/
def mergeBack (resp : Resp) (ctx : Option HeaderMap) : Resp :=
  match ctx with
  | none => resp
  | some h => { resp with headers := extendH resp.headers h }

/-- `accepts_html` (`serverfn.rs` lines 98-103): the first `accept` value,
when it is a valid string, contains the substring `text/html`. -/
def acceptsHtml (reqHeaders : HeaderMap) : Bool :=
  match hGet reqHeaders "accept" with
  | some v => containsSub "text/html".toList v.toList
  | none => false

/-- The redirect heuristic (`serverfn.rs` lines 121-129): if the request
accepts HTML and carried a referer, and the (merged) response has no
`location` header, set status 302 (`StatusCode::FOUND`) and insert the
referer as `location`. -/
def redirectRewrite (acceptsH : Bool) (referrer : Option String) (resp : Resp) : Resp :=
  if acceptsH then
    match referrer with
    | some r =>
      if (hGet resp.headers "location").isSome then resp
      else { resp with status := 302, headers := insertH resp.headers "location" r }
    | none => resp
  else resp

/-- The whole in-scope post-processing of a handler response: header
merge-back, then the redirect heuristic (strictly in this order, as in the
source). -/
def scopePipeline (reqHeaders : HeaderMap) (resp : Resp) (ctx : Option HeaderMap) : Resp :=
  redirectRewrite (acceptsHtml reqHeaders) (hGet reqHeaders "referer") (mergeBack resp ctx)

/-- `serverfn.rs` lines 137-147: the dispatch endpoint converts an abnormal
termination of the pinned unit into an HTTP 500 response whose body is the
panic detail in debug builds and a generic message in release builds. -/
def handleWorkerResult (debugBuild : Bool) (result : Except String Resp) : Resp :=
  match result with
  | .ok r => r
  | .error err =>
    { status := 500
      headers := []
      body :=
        if debugBuild then "Server function panicked: " ++ err
        else "Internal Server Error" }

/-! ### Model of the render handler (`src/server.rs`, `render_handler`) -/

/-- The renderer collaborator's typed failure (`crate::ssr::SSRError`),
with the incremental error and the optional body carried as their display
strings. -/
inductive SSRError
  | incremental (msg : String)
  | httpError (status : Nat) (message : Option String)

/-- `http::StatusCode::canonical_reason`: the standard reason phrase of a
status code, when one exists (the `http` crate's table). -/
def canonicalReason (status : Nat) : Option String :=
  match status with
  | 100 => some "Continue"
  | 101 => some "Switching Protocols"
  | 102 => some "Processing"
  | 200 => some "OK"
  | 201 => some "Created"
  | 202 => some "Accepted"
  | 203 => some "Non Authoritative Information"
  | 204 => some "No Content"
  | 205 => some "Reset Content"
  | 206 => some "Partial Content"
  | 207 => some "Multi-Status"
  | 208 => some "Already Reported"
  | 226 => some "IM Used"
  | 300 => some "Multiple Choices"
  | 301 => some "Moved Permanently"
  | 302 => some "Found"
  | 303 => some "See Other"
  | 304 => some "Not Modified"
  | 305 => some "Use Proxy"
  | 307 => some "Temporary Redirect"
  | 308 => some "Permanent Redirect"
  | 400 => some "Bad Request"
  | 401 => some "Unauthorized"
  | 402 => some "Payment Required"
  | 403 => some "Forbidden"
  | 404 => some "Not Found"
  | 405 => some "Method Not Allowed"
  | 406 => some "Not Acceptable"
  | 407 => some "Proxy Authentication Required"
  | 408 => some "Request Timeout"
  | 409 => some "Conflict"
  | 410 => some "Gone"
  | 411 => some "Length Required"
  | 412 => some "Precondition Failed"
  | 413 => some "Payload Too Large"
  | 414 => some "URI Too Long"
  | 415 => some "Unsupported Media Type"
  | 416 => some "Range Not Satisfiable"
  | 417 => some "Expectation Failed"
  | 418 => some "I\x27m a teapot"
  | 421 => some "Misdirected Request"
  | 422 => some "Unprocessable Entity"
  | 423 => some "Locked"
  | 424 => some "Failed Dependency"
  | 426 => some "Upgrade Required"
  | 428 => some "Precondition Required"
  | 429 => some "Too Many Requests"
  | 431 => some "Request Header Fields Too Large"
  | 451 => some "Unavailable For Legal Reasons"
  | 500 => some "Internal Server Error"
  | 501 => some "Not Implemented"
  | 502 => some "Bad Gateway"
  | 503 => some "Service Unavailable"
  | 504 => some "Gateway Timeout"
  | 505 => some "HTTP Version Not Supported"
  | 506 => some "Variant Also Negotiates"
  | 507 => some "Insufficient Storage"
  | 508 => some "Loop Detected"
  | 510 => some "Not Extended"
  | 511 => some "Network Authentication Required"
  | _ => none

/-- `render_handler`'s error arms (`server.rs` lines 195-211): an
incremental failure becomes a 500 whose body is the error's display text;
an HTTP failure keeps its status, with the supplied body, else the status's
canonical reason phrase, else a generic message. -/
def renderErrorResponse : SSRError → Resp
  | .incremental e => { status := 500, headers := [], body := e }
  | .httpError status message =>
    { status := status
      headers := []
      body := message.getD ((canonicalReason status).getD "An unknown error occurred") }

/-- `render_handler`'s success arm (`server.rs` lines 181-193): build a
response with the renderer's status and stream as body, a `content-type` of
`text/html; charset=utf-8`, let the freshness value write its cache-control
header, then walk the renderer's header map, `insert`-ing the first value of
each entry (entries whose name slot is `None` — extra values of a
multi-valued name — are skipped by the `if let Some(key)` guard).

Modelled from the spec: the freshness value (`RenderFreshness` of the
out-of-src isrg module) "writes its own cache-control header(s) into the
response first"; modelled as an optional single `cache-control` value
written with `insert`. -/
def insertRendererHeaders (acc : HeaderMap) : HeaderMap → HeaderMap
  | [] => acc
  | e :: rest =>
    match e.2 with
    | [] => insertRendererHeaders acc rest
    | v :: _ => insertRendererHeaders (insertH acc e.1 v) rest

/-- The success arm's response value (see `insertRendererHeaders` above for
the header loop). -/
def renderSuccess (status : Nat) (rheaders : HeaderMap) (freshness : Option String)
    (body : String) : Resp :=
  let h0 : HeaderMap := insertH [] "content-type" "text/html; charset=utf-8"
  let h1 :=
    match freshness with
    | some v => insertH h0 "cache-control" v
    | none => h0
  { status := status, headers := insertRendererHeaders h1 rheaders, body := body }

/-! ### Model of the handler registry and routing dedup (`src/server.rs`,
`register_server_functions`) -/

/-- A registered `ServerFunction` record: method, path, and the handler
factory (identified by the router value it produces, a `Nat` tag). -/
structure SFRecord where
  method : String
  path : String
  handlerId : Nat
deriving DecidableEq, Repr

/-- The registration key: `format!("{} {}", method, path)`. -/
def recKey (r : SFRecord) : String := r.method ++ " " ++ r.path

/-- A mounted route: the key it serves and the handler produced by the
record's factory. -/
structure SFRoute where
  method : String
  path : String
  handlerId : Nat
deriving DecidableEq, Repr

def routeKey (rt : SFRoute) : String := rt.method ++ " " ++ rt.path

/-- Mount a record: `self.route(func.path(), func.method_router())`, where
`method_router` invokes the record's factory. -/
def mkRoute (r : SFRecord) : SFRoute :=
  { method := r.method, path := r.path, handlerId := r.handlerId }

/-- The loop of `register_server_functions` (`server.rs` lines 46-56):
fold over the collected records keeping a seen-key set; a record whose key
is newly inserted adds a route, otherwise it is skipped. -/
def registerAux (seen : List String) (router : List SFRoute) :
    List SFRecord → List SFRoute
  | [] => router
  | r :: rest =>
    if seen.contains (recKey r) then registerAux seen router rest
    else registerAux (recKey r :: seen) (router ++ [mkRoute r]) rest

/-- `register_server_functions` on an empty router. -/
def register_server_functions (records : List SFRecord) : List SFRoute :=
  registerAux [] [] records

/-- Spec-side formalization of the dedup contract (§4.3): keep the first
record of each `(method, path)` key, in registration order, dropping every
later record with an already-seen key. -/
def specDedupFirst : List SFRecord → List SFRecord
  | [] => []
  | r :: rest =>
    r :: specDedupFirst (rest.filter (fun r2 => !(recKey r2 == recKey r)))
termination_by l => l.length
decreasing_by
  simp only [List.length_cons]
  exact Nat.lt_succ_of_le (List.length_filter_le _ _)

/-! ### Model of the static-asset policy (`src/server.rs` lines 216-303) -/

/-- The content-fingerprint marker `"-dxh"` of `serve_dir_cached`. -/
def dxhPat : List Char := ['-', 'd', 'x', 'h']

/-- `file_name_looks_immutable` (`server.rs` lines 297-303): split at the
last occurrence of the marker `-dxh` and require every character of the
suffix, up to the first `.`, to be an ASCII hex digit. -/
def file_name_looks_immutable (file_name : String) : Bool :=
  match rsplitOnceList dxhPat file_name.toList with
  | none => false
  | some (_, hash) => (hash.takeWhile (fun c => !(c == '.'))).all isAsciiHexdigit

/-- The stem of a filename: the part before the last `.`, or the whole name
when it has no `.`. -/
def stemOf (s : List Char) : List Char :=
  match rsplitOnceList ['.'] s with
  | some (pre, _) => pre
  | none => s

/-- The spec's classification (§4.5 and testable property 5), for comparison
with the source's `file_name_looks_immutable`: the filename, before its
extension, ends with the marker `-dxh` followed by a nonempty run of ASCII
hex digits reaching the extension separator. -/
def spec_immutable_classification (file_name : String) : Bool :=
  let stem := stemOf file_name.toList
  let run := (stem.reverse.takeWhile isAsciiHexdigit).reverse
  let rest := stem.take (stem.length - run.length)
  !run.isEmpty && "-dxh".toList.isSuffixOf rest

/-- A directory entry of the public-asset tree, as enumerated by
`std::fs::read_dir` (modelled as an already-materialized tree: inner
directories carry their own entries). -/
inductive FsEntry
  | file (name : String)
  | dir (name : String) (entries : List FsEntry)

def entryName : FsEntry → String
  | .file n => n
  | .dir n _ => n

/-- The service mounted on a route by the static-asset policy. -/
inductive ServiceKind
  /-- Debug builds: a live `ServeDir` pass-through for a directory. -/
  | serveDirLive
  /-- A `ServeFile` with the default caching behavior. -/
  | serveFilePlain
  /-- A `ServeFile` wrapped by `cache_response_forever`, which inserts
  `cache-control: public, max-age=31536000, immutable`. -/
  | serveFileCached
deriving DecidableEq, Repr

/-- A route added to the router by `serve_dir_cached`. -/
structure RouteEntry where
  route : String
  service : ServiceKind
deriving DecidableEq, Repr

/-- The URL path of an entry: relative path segments joined by `/`, rooted
at `/`. -/
def routeOfSegments (segs : List String) : String :=
  "/" ++ String.intercalate "/" segs

mutual

/-- Process one directory entry of `serve_dir_cached`'s loop
(`server.rs` lines 244-275): skip the public root's own `index.html`;
nest a live directory service for directories in debug builds or recurse in
release builds; serve files with the immutable cache wrapper exactly when
`file_name_looks_immutable` accepts the route. -/
def serveEntry (dbg : Bool) (pfx : List String) (router : List RouteEntry) :
    FsEntry → List RouteEntry
  | .file name =>
    if pfx = [] && name = "index.html" then router
    else
      let route := routeOfSegments (pfx ++ [name])
      if file_name_looks_immutable route then
        router ++ [{ route := route, service := .serveFileCached }]
      else
        router ++ [{ route := route, service := .serveFilePlain }]
  | .dir name entries =>
    if pfx = [] && name = "index.html" then router
    else if dbg then
      router ++ [{ route := routeOfSegments (pfx ++ [name]), service := .serveDirLive }]
    else
      serveEntries dbg (pfx ++ [name]) router entries

/-- Fold `serveEntry` over a directory's entries in order. -/
def serveEntries (dbg : Bool) (pfx : List String) (router : List RouteEntry) :
    List FsEntry → List RouteEntry
  | [] => router
  | e :: rest => serveEntries dbg pfx (serveEntry dbg pfx router e) rest

end

/-- `serve_dir_cached` (`server.rs` lines 229-277) at the public root.
`dirRead = none` models `std::fs::read_dir` failing (nonexistent or
unreadable directory), which the source turns into a panic
(`unwrap_or_else(|e| panic!(...))`) — modelled as `Except.error` with the
panic's message. -/
def serve_dir_cached (dbg : Bool) (router : List RouteEntry)
    (dirRead : Option (List FsEntry)) : Except String (List RouteEntry) :=
  match dirRead with
  | none => .error "Couldn\x27t read public directory"
  | some entries => .ok (serveEntries dbg [] router entries)

/-- `serve_static_assets` (`server.rs` lines 58-63).  `publicPath = none`
models `public_path()` returning `None` (no environment override and the
executable's path unavailable); otherwise the resolved directory's read
result is passed to `serve_dir_cached`. -/
def serve_static_assets (dbg : Bool) (publicPath : Option (Option (List FsEntry)))
    (router : List RouteEntry) : Except String (List RouteEntry) :=
  match publicPath with
  | none => .ok router
  | some dirRead => serve_dir_cached dbg router dirRead

/-! ## Lemmas about the header-map model -/

theorem getAll_append_map (m1 m2 : HeaderMap) (k : String) :
    getAll (m1 ++ m2) k = getAll m1 k ++ getAll m2 k := by
  induction m1 with
  | nil => simp [getAll]
  | cons e rest ih => simp [getAll, ih]

theorem getAll_removeKey_self (m : HeaderMap) (k : String) :
    getAll (removeKey m k) k = [] := by
  induction m with
  | nil => simp [removeKey, getAll]
  | cons e rest ih =>
    by_cases h : e.1 = k
    · simpa [removeKey, h] using ih
    · simpa [removeKey, getAll, h] using ih

theorem getAll_removeKey_ne (m : HeaderMap) (k k2 : String) (h : k2 ≠ k) :
    getAll (removeKey m k) k2 = getAll m k2 := by
  induction m with
  | nil => simp [removeKey]
  | cons e rest ih =>
    by_cases he : e.1 = k
    · have hne : ¬ e.1 = k2 := by rw [he]; exact fun hh => h hh.symm
      simp only [removeKey, List.filter_cons, he] at ih ⊢
      simpa [getAll, hne] using ih
    · have step : removeKey (e :: rest) k = e :: removeKey rest k := by
        simp [removeKey, List.filter_cons, he]
      rw [step]
      simp only [getAll]
      rw [ih]

theorem getAll_insertH_self (m : HeaderMap) (k v : String) :
    getAll (insertH m k v) k = [v] := by
  simp [insertH, getAll_append_map, getAll_removeKey_self, getAll]

theorem getAll_insertH_ne (m : HeaderMap) (k v k2 : String) (h : k2 ≠ k) :
    getAll (insertH m k v) k2 = getAll m k2 := by
  have hne : ¬ k = k2 := fun hh => h hh.symm
  simp [insertH, getAll_append_map, getAll_removeKey_ne m k k2 h, getAll, hne]

/-- Entries of `removeKey m k` never carry the name `k`. -/
theorem removeKey_noKey (m : HeaderMap) (k : String) :
    ∀ e ∈ removeKey m k, ¬ e.1 = k := by
  intro e he
  have := List.of_mem_filter he
  simpa using this

/-- `appendH` on a map whose unique `k` entry is last appends to that entry. -/
theorem appendH_last (m0 : HeaderMap) (k v : String) (l : List String)
    (h : ∀ e ∈ m0, ¬ e.1 = k) :
    appendH (m0 ++ [(k, l)]) k v = m0 ++ [(k, l ++ [v])] := by
  induction m0 with
  | nil => simp [appendH]
  | cons e rest ih =>
    have he : ¬ e.1 = k := h e (List.mem_cons_self e rest)
    have ih2 := ih (fun e2 hm => h e2 (List.mem_cons_of_mem e hm))
    simp [appendH, he, ih2]

theorem foldl_appendH_last (k : String) (vs : List String) (m0 : HeaderMap)
    (l : List String) (h : ∀ e ∈ m0, ¬ e.1 = k) :
    vs.foldl (fun a w => appendH a k w) (m0 ++ [(k, l)]) = m0 ++ [(k, l ++ vs)] := by
  induction vs generalizing l with
  | nil => simp
  | cons v rest ih =>
    simp only [List.foldl_cons, appendH_last m0 k v l h, ih (l ++ [v])]
    simp

/-- The net effect of one `extend` entry with a nonempty value list: all old
values of `k` are dropped, the entry's values become the values of `k`. -/
theorem extendEntry_eq (self : HeaderMap) (k v : String) (vs : List String) :
    extendEntry self k (v :: vs) = removeKey self k ++ [(k, v :: vs)] := by
  simp only [extendEntry, insertH]
  rw [foldl_appendH_last k vs (removeKey self k) [v] (removeKey_noKey self k)]
  simp

theorem getAll_extendEntry_self (self : HeaderMap) (k v : String) (vs : List String) :
    getAll (extendEntry self k (v :: vs)) k = v :: vs := by
  rw [extendEntry_eq]
  simp [getAll_append_map, getAll_removeKey_self, getAll]

theorem getAll_extendEntry_ne (self : HeaderMap) (k k2 : String) (h : k2 ≠ k)
    (vs : List String) :
    getAll (extendEntry self k vs) k2 = getAll self k2 := by
  cases vs with
  | nil => rfl
  | cons v rest =>
    have hne : ¬ k = k2 := fun hh => h hh.symm
    rw [extendEntry_eq]
    simp [getAll_append_map, getAll_removeKey_ne self k k2 h, getAll, hne]

theorem getAll_extendH_not_mem (other : HeaderMap) (self : HeaderMap) (k : String)
    (h : k ∉ other.map Prod.fst) :
    getAll (extendH self other) k = getAll self k := by
  induction other generalizing self with
  | nil => rfl
  | cons e rest ih =>
    simp only [List.map_cons, List.mem_cons, not_or] at h
    rw [extendH, ih _ h.2, getAll_extendEntry_ne _ _ _ h.1]

theorem getAll_extendH_mem (other : HeaderMap) (self : HeaderMap) (k v : String)
    (vs : List String) (hnd : keysNodup other) (hm : (k, v :: vs) ∈ other) :
    getAll (extendH self other) k = v :: vs := by
  induction other generalizing self with
  | nil => cases hm
  | cons e rest ih =>
    have hnd2 : keysNodup rest := (List.nodup_cons.mp hnd).2
    rcases List.mem_cons.mp hm with hh | hh
    · subst hh
      have hk : (k, v :: vs).1 ∉ rest.map Prod.fst := (List.nodup_cons.mp hnd).1
      rw [extendH, getAll_extendH_not_mem rest _ _ hk, getAll_extendEntry_self]
    · rw [extendH]
      exact ih _ hnd2 hh

/-- `mergeBack` only touches the headers. -/
theorem mergeBack_status_body (resp : Resp) (ctx : Option HeaderMap) :
    (mergeBack resp ctx).status = resp.status ∧ (mergeBack resp ctx).body = resp.body := by
  cases ctx <;> simp [mergeBack]

/-! ## C1 — header merge-back -/

/-- C1 (counterexample): the claim says that with a handler response carrying
`x: 1` and a context that accumulated `x: 2`, the merged response contains
both values with the handler's first.  On the code it does not: the
`HeaderMap::extend` of the merge-back replaces the handler's `x` values, so
after the merge the values for `x` are exactly `["2"]` and the handler's
`"1"` is gone. -/
theorem merge_back_counterexample :
    getAll (mergeBack ⟨200, [("x", ["1"])], "body"⟩ (some [("x", ["2"])])).headers "x"
      = ["2"]
    ∧ ¬ "1" ∈ getAll
        (mergeBack ⟨200, [("x", ["1"])], "body"⟩ (some [("x", ["2"])])).headers "x" := by
  decide

/-- C1 (amended): the merge-back is not additive.  For every header name the
context accumulated, the context's values for that name replace the
handler's values for it (first context value by `insert`, the rest by
`append`); names the context did not touch keep the handler's values; the
status and body are untouched; and when the context accumulated no headers
the response is returned unchanged. -/
theorem merge_back_replaces (resp : Resp) (ctx : HeaderMap) (hnd : keysNodup ctx) :
    (mergeBack resp (some ctx)).status = resp.status
    ∧ (mergeBack resp (some ctx)).body = resp.body
    ∧ (∀ k v vs, (k, v :: vs) ∈ ctx →
        getAll (mergeBack resp (some ctx)).headers k = v :: vs)
    ∧ (∀ k, k ∉ ctx.map Prod.fst →
        getAll (mergeBack resp (some ctx)).headers k = getAll resp.headers k)
    ∧ mergeBack resp none = resp := by
  refine ⟨(mergeBack_status_body resp (some ctx)).1,
    (mergeBack_status_body resp (some ctx)).2, ?_, ?_, rfl⟩
  · intro k v vs hm
    simpa [mergeBack] using getAll_extendH_mem ctx resp.headers k v vs hnd hm
  · intro k hk
    simpa [mergeBack] using getAll_extendH_not_mem ctx resp.headers k hk

/-- C1 (witness for the amended theorem): concrete instance — context `x: 2`
over handler headers `x: 1`, `y: 7`: `x` becomes `["2"]`, `y` stays. -/
theorem merge_back_replaces_witness :
    getAll (mergeBack ⟨200, [("x", ["1"]), ("y", ["7"])], "b"⟩
        (some [("x", ["2"])])).headers "x" = ["2"]
    ∧ getAll (mergeBack ⟨200, [("x", ["1"]), ("y", ["7"])], "b"⟩
        (some [("x", ["2"])])).headers "y" = ["7"] := by
  have h := merge_back_replaces ⟨200, [("x", ["1"]), ("y", ["7"])], "b"⟩
    [("x", ["2"])] (by decide)
  exact ⟨h.2.2.1 "x" "2" [] (by decide), h.2.2.2.1 "y" (by decide)⟩

/-! ## C4 — panic isolation at the dispatch boundary -/

/-- C4: an abnormal termination of the pinned unit is converted by the
dispatching endpoint into an HTTP 500 response (never re-raised), whose body
is the panic detail in debug builds and a generic message in release
builds. -/
theorem worker_failure_yields_500 (debugBuild : Bool) (err : String) :
    (handleWorkerResult debugBuild (.error err)).status = 500
    ∧ (handleWorkerResult debugBuild (.error err)).body
        = (if debugBuild then "Server function panicked: " ++ err
           else "Internal Server Error")
    ∧ (∀ r : Resp, handleWorkerResult debugBuild (.ok r) = r) := by
  exact ⟨rfl, rfl, fun r => rfl⟩

/-! ## C6 — the redirect heuristic fires iff all three conditions hold -/

/-- C6: in the native path the post-merge response is rewritten to status
302 with `location` set to the captured referer exactly when the request
accepts HTML, a referer was present, and the merged response has no
`location` header; if any of the three conditions fails the merged response
is returned unchanged. -/
theorem redirect_heuristic_iff (reqHeaders : HeaderMap) (resp : Resp)
    (ctx : Option HeaderMap) :
    (∀ r, hGet reqHeaders "referer" = some r →
      acceptsHtml reqHeaders = true →
      hGet (mergeBack resp ctx).headers "location" = none →
      scopePipeline reqHeaders resp ctx
        = { mergeBack resp ctx with
            status := 302
            headers := insertH (mergeBack resp ctx).headers "location" r })
    ∧ ((acceptsHtml reqHeaders = false ∨ hGet reqHeaders "referer" = none ∨
        (hGet (mergeBack resp ctx).headers "location").isSome = true) →
      scopePipeline reqHeaders resp ctx = mergeBack resp ctx) := by
  constructor
  · intro r hr ha hl
    simp [scopePipeline, redirectRewrite, ha, hr, hl]
  · intro h
    rcases h with h | h | h
    · simp [scopePipeline, redirectRewrite, h]
    · cases hb : acceptsHtml reqHeaders <;>
        simp [scopePipeline, redirectRewrite, h, hb]
    · cases hb : acceptsHtml reqHeaders
      · simp [scopePipeline, redirectRewrite, hb]
      · cases hr : hGet reqHeaders "referer" <;>
          simp [scopePipeline, redirectRewrite, hb, hr, h]

/-- C6 (witness): a request with `accept: text/html` and `referer: /form`,
a handler 200 response without `location`, no context headers: the result is
302 with `location: /form`.  And the same request with a handler-set
`location: /done`: unchanged. -/
theorem redirect_heuristic_iff_witness :
    scopePipeline [("accept", ["text/html"]), ("referer", ["/form"])]
        ⟨200, [("a", ["b"])], "payload"⟩ none
      = ⟨302, [("a", ["b"]), ("location", ["/form"])], "payload"⟩
    ∧ scopePipeline [("accept", ["text/html"]), ("referer", ["/form"])]
        ⟨200, [("location", ["/done"])], "payload"⟩ none
      = ⟨200, [("location", ["/done"])], "payload"⟩ := by
  constructor
  · have h := (redirect_heuristic_iff
      [("accept", ["text/html"]), ("referer", ["/form"])]
      ⟨200, [("a", ["b"])], "payload"⟩ none).1 "/form" (by decide) (by decide) (by decide)
    rw [h]
    decide
  · have h := (redirect_heuristic_iff
      [("accept", ["text/html"]), ("referer", ["/form"])]
      ⟨200, [("location", ["/done"])], "payload"⟩ none).2 (Or.inr (Or.inr (by decide)))
    rw [h]
    rfl

/-! ## C9 — frame property of the redirect rewrite -/

/-- C9: when the redirect heuristic fires (the three conditions hold on the
*merged* response — the rewrite runs strictly after the merge-back, so its
`location` check observes merged headers), the rewrite only changes the
status and the `location` header: the body and the values of every other
header name are exactly those of the merged response. -/
theorem redirect_rewrite_frame (reqHeaders : HeaderMap) (resp : Resp)
    (ctx : Option HeaderMap) (r : String)
    (hr : hGet reqHeaders "referer" = some r)
    (ha : acceptsHtml reqHeaders = true)
    (hl : hGet (mergeBack resp ctx).headers "location" = none) :
    (scopePipeline reqHeaders resp ctx).body = (mergeBack resp ctx).body
    ∧ (scopePipeline reqHeaders resp ctx).body = resp.body
    ∧ (scopePipeline reqHeaders resp ctx).status = 302
    ∧ getAll (scopePipeline reqHeaders resp ctx).headers "location" = [r]
    ∧ ∀ k, k ≠ "location" →
        getAll (scopePipeline reqHeaders resp ctx).headers k
          = getAll (mergeBack resp ctx).headers k := by
  have hfin : scopePipeline reqHeaders resp ctx
      = { mergeBack resp ctx with
          status := 302
          headers := insertH (mergeBack resp ctx).headers "location" r } := by
    simp [scopePipeline, redirectRewrite, ha, hr, hl]
  rw [hfin]
  refine ⟨rfl, (mergeBack_status_body resp ctx).2, rfl, getAll_insertH_self _ _ _, ?_⟩
  intro k hk
  exact getAll_insertH_ne _ _ _ _ hk

/-- C9 (witness): concrete firing instance — the body and the unrelated
header `a` survive, only status and `location` change. -/
theorem redirect_rewrite_frame_witness :
    (scopePipeline [("accept", ["text/html"]), ("referer", ["/back"])]
        ⟨200, [("a", ["b"])], "payload"⟩ (some [("set-cookie", ["s=1"])])).body
      = "payload"
    ∧ (scopePipeline [("accept", ["text/html"]), ("referer", ["/back"])]
        ⟨200, [("a", ["b"])], "payload"⟩ (some [("set-cookie", ["s=1"])])).status = 302
    ∧ getAll (scopePipeline [("accept", ["text/html"]), ("referer", ["/back"])]
        ⟨200, [("a", ["b"])], "payload"⟩ (some [("set-cookie", ["s=1"])])).headers "a"
      = ["b"] := by
  have h := redirect_rewrite_frame [("accept", ["text/html"]), ("referer", ["/back"])]
    ⟨200, [("a", ["b"])], "payload"⟩ (some [("set-cookie", ["s=1"])]) "/back"
    (by decide) (by decide) (by decide)
  refine ⟨h.2.1, h.2.2.1, ?_⟩
  rw [h.2.2.2.2 "a" (by decide)]
  decide

/-! ## Lemmas about `rsplitOnceList` (Rust `str::rsplit_once`) -/

theorem isPrefixOf_eq_append (p l : List Char) (h : p.isPrefixOf l = true) :
    l = p ++ l.drop p.length := by
  rcases List.isPrefixOf_iff_prefix.mp h with ⟨t, ht⟩
  subst ht
  simp

theorem rsplit_decomp (pat : List Char) (l pre post : List Char)
    (h : rsplitOnceList pat l = some (pre, post)) :
    l = pre ++ pat ++ post := by
  induction l generalizing pre post with
  | nil => simp [rsplitOnceList] at h
  | cons c rest ih =>
    rw [rsplitOnceList] at h
    cases hres : rsplitOnceList pat rest with
    | some pq =>
      rw [hres] at h
      cases h
      have := ih pq.1 pq.2 (by rw [hres])
      simp [this]
    | none =>
      rw [hres] at h
      by_cases hpre : pat.isPrefixOf (c :: rest)
      · rw [if_pos hpre] at h
        cases h
        have := isPrefixOf_eq_append pat (c :: rest) hpre
        simpa using this
      · rw [if_neg hpre] at h
        cases h

theorem containsSub_false_of_cons (pat : List Char) (c : Char) (l : List Char)
    (h : containsSub pat (c :: l) = false) : containsSub pat l = false := by
  rw [containsSub, Bool.or_eq_false_iff] at h
  exact h.2

theorem containsSub_drop (pat l : List Char) (n : Nat)
    (h : containsSub pat l = false) : containsSub pat (l.drop n) = false := by
  induction n generalizing l with
  | zero => simpa using h
  | succ n ih =>
    cases l with
    | nil => simpa using h
    | cons c rest => exact ih rest (containsSub_false_of_cons pat c rest h)

theorem rsplit_none_iff (pat : List Char) (hp : pat ≠ []) (l : List Char) :
    rsplitOnceList pat l = none ↔ containsSub pat l = false := by
  induction l with
  | nil =>
    rw [rsplitOnceList, containsSub]
    simp [List.isEmpty_iff, hp]
  | cons c rest ih =>
    rw [rsplitOnceList, containsSub]
    cases hres : rsplitOnceList pat rest with
    | some pq =>
      have hc : containsSub pat rest = true := by
        by_contra hcc
        have := ih.mpr (Bool.eq_false_iff.mpr hcc)
        rw [this] at hres
        cases hres
      simp [hc]
    | none =>
      have hrest : containsSub pat rest = false := ih.mp hres
      by_cases hpre : pat.isPrefixOf (c :: rest)
      · simp [hpre]
      · simp [hpre, hrest, Bool.eq_false_iff.mpr hpre]

theorem rsplit_post_no_marker (pat : List Char) (hp : pat ≠ []) (l pre post : List Char)
    (h : rsplitOnceList pat l = some (pre, post)) :
    containsSub pat post = false := by
  induction l generalizing pre post with
  | nil => simp [rsplitOnceList] at h
  | cons c rest ih =>
    rw [rsplitOnceList] at h
    cases hres : rsplitOnceList pat rest with
    | some pq =>
      rw [hres] at h
      cases h
      exact ih pq.1 pq.2 (by rw [hres])
    | none =>
      rw [hres] at h
      by_cases hpre : pat.isPrefixOf (c :: rest)
      · rw [if_pos hpre] at h
        cases h
        cases pat with
        | nil => exact absurd rfl hp
        | cons p ps =>
          have hrest : containsSub (p :: ps) rest = false :=
            (rsplit_none_iff (p :: ps) hp rest).mp hres
          simpa using containsSub_drop (p :: ps) rest ps.length hrest
      · rw [if_neg hpre] at h
        cases h

/-- The marker cannot overlap itself: after stripping its leading `-`, the
remainder `dxh…post` contains the marker only where `post` does. -/
theorem containsSub_dxh_tail (post : List Char)
    (h : containsSub dxhPat post = false) :
    containsSub dxhPat ('d' :: 'x' :: 'h' :: post) = false := by
  rw [containsSub, containsSub, containsSub, h]
  simp [dxhPat, List.isPrefixOf]

theorem rsplit_dxh_complete (pre post : List Char)
    (h : containsSub dxhPat post = false) :
    rsplitOnceList dxhPat (pre ++ dxhPat ++ post) = some (pre, post) := by
  induction pre with
  | nil =>
    have hrest : rsplitOnceList dxhPat ('d' :: 'x' :: 'h' :: post) = none :=
      (rsplit_none_iff dxhPat (by decide) _).mpr (containsSub_dxh_tail post h)
    have hshape : ([] : List Char) ++ dxhPat ++ post = '-' :: 'd' :: 'x' :: 'h' :: post := by
      simp [dxhPat]
    rw [hshape, rsplitOnceList, hrest]
    have hpre : dxhPat.isPrefixOf ('-' :: 'd' :: 'x' :: 'h' :: post) = true := by
      simp [dxhPat, List.isPrefixOf]
    rw [if_pos hpre]
    simp [dxhPat]
  | cons c pre2 ih =>
    have hshape : (c :: pre2) ++ dxhPat ++ post = c :: (pre2 ++ dxhPat ++ post) := by
      simp
    rw [hshape, rsplitOnceList, ih]

/-! ## C2 — immutable-asset classification -/

/-- C2 (counterexample): on the claim's own example inputs the code agrees
for `bundle-dxh1a2B3c4.wasm` (immutable) and `bundle.wasm` (not), but
classifies the empty-hash name `bundle-dxh.wasm` as immutable — the
`take_while ≠ extension-dot` / `all hex` check is vacuously true on an empty
hash run — while the claim (and the spec predicate it formalizes) requires a
nonempty hex run. -/
theorem immutable_classification_counterexample :
    file_name_looks_immutable "bundle-dxh.wasm" = true
    ∧ spec_immutable_classification "bundle-dxh.wasm" = false
    ∧ file_name_looks_immutable "bundle-dxh1a2B3c4.wasm" = true
    ∧ spec_immutable_classification "bundle-dxh1a2B3c4.wasm" = true
    ∧ file_name_looks_immutable "bundle.wasm" = false := by
  decide

/-- C2 (amended): a file route is classified immutable iff the name contains
the marker `-dxh`, and every character strictly between the *last* marker
occurrence and the first following `.` (or the end of the name) is an ASCII
hex digit — a possibly *empty* run; in particular the claim's
`bundle-dxh.wasm` is classified immutable, `bundle-dxh1a2B3c4.wasm` is, and
`bundle.wasm` is not. -/
theorem immutable_classification_amended (s : String) :
    file_name_looks_immutable s = true ↔
    ∃ pre post : List Char,
      s.toList = pre ++ dxhPat ++ post
      ∧ containsSub dxhPat post = false
      ∧ (post.takeWhile (fun c => !(c == '.'))).all isAsciiHexdigit = true := by
  constructor
  · intro h
    rw [file_name_looks_immutable] at h
    cases hres : rsplitOnceList dxhPat s.toList with
    | none => rw [hres] at h; cases h
    | some pq =>
      rw [hres] at h
      refine ⟨pq.1, pq.2, ?_, ?_, h⟩
      · exact rsplit_decomp _ _ _ _ (by rw [hres])
      · exact rsplit_post_no_marker _ (by decide) _ _ _ (by rw [hres])
  · rintro ⟨pre, post, hs, hnm, hhex⟩
    rw [file_name_looks_immutable, hs, rsplit_dxh_complete pre post hnm]
    exact hhex

/-! ## C3 — static-asset construction against a missing public root -/

/-- C3 (counterexample): the claim says a nonexistent/unreadable public-asset
root yields the original route table unchanged without panicking.  On the
code, once a public path is resolved (`public_path()` returned `Some`), a
failing `read_dir` panics (`unwrap_or_else(|e| panic!(...))`) — the original
router is not returned. -/
theorem static_assets_counterexample :
    serve_static_assets true (some none) []
      = Except.error "Couldn\x27t read public directory"
    ∧ serve_static_assets false (some none) [] ≠ Except.ok [] := by
  constructor
  · rfl
  · simp [serve_static_assets, serve_dir_cached]

/-- C3 (amended): static-asset serving is skipped — the original route table
returned unchanged, no route added — exactly when no public path resolves at
all (`public_path()` returns `None`); when a path resolves but its directory
cannot be read, router construction panics with a diagnostic message
instead of returning a router. -/
theorem static_assets_skip_or_panic (dbg : Bool) (router : List RouteEntry) :
    serve_static_assets dbg none router = Except.ok router
    ∧ serve_static_assets dbg (some none) router
        = Except.error "Couldn\x27t read public directory" := by
  exact ⟨rfl, rfl⟩

/-! ## C5 — routing-table dedup -/

theorem routeKey_mkRoute (r : SFRecord) : routeKey (mkRoute r) = recKey r := rfl

theorem str_beq_symm (a b : String) : (a == b) = (b == a) := by
  by_cases h : a = b
  · rw [h]
  · rw [beq_eq_false_iff_ne.mpr h, beq_eq_false_iff_ne.mpr (Ne.symm h)]

/-- Route multiplicity per key: the routes built by the registration loop
for key `k` on top of `router` are `router`'s routes for `k` followed by the
route of the first not-yet-seen record with key `k`, if any. -/
theorem registerAux_filter (records : List SFRecord) (seen : List String)
    (router : List SFRoute) (k : String) :
    (registerAux seen router records).filter (fun rt => routeKey rt == k)
    = router.filter (fun rt => routeKey rt == k)
      ++ (if seen.contains k then []
         else ((records.find? (fun r => recKey r == k)).map mkRoute).toList) := by
  induction records generalizing seen router with
  | nil => simp [registerAux]
  | cons r rest ih =>
    rw [registerAux]
    by_cases hk : recKey r = k
    · subst hk
      by_cases hseen : seen.contains (recKey r)
      · rw [if_pos hseen, ih, hseen]
        simp
      · have hseenF : seen.contains (recKey r) = false := Bool.eq_false_iff.mpr hseen
        rw [if_neg hseen, ih, hseenF]
        have h1 : (recKey r :: seen).contains (recKey r) = true := by
          rw [List.contains_cons]
          simp
        rw [h1]
        have h2 : List.find? (fun x => recKey x == recKey r) (r :: rest) = some r := by
          rw [List.find?_cons]
          simp
        rw [h2, List.filter_append]
        have h3 : [mkRoute r].filter (fun rt => routeKey rt == recKey r)
            = [mkRoute r] := by
          simp [routeKey_mkRoute]
        rw [h3]
        simp
    · have hk2 : (recKey r == k) = false := beq_eq_false_iff_ne.mpr hk
      have h2 : List.find? (fun x => recKey x == k) (r :: rest)
          = List.find? (fun x => recKey x == k) rest := by
        rw [List.find?_cons, hk2]
      by_cases hseen : seen.contains (recKey r)
      · rw [if_pos hseen, ih, h2]
      · rw [if_neg hseen, ih]
        have h1 : (recKey r :: seen).contains k = seen.contains k := by
          rw [List.contains_cons, beq_eq_false_iff_ne.mpr (Ne.symm hk)]
          simp
        rw [h1, List.filter_append, h2]
        have h3 : [mkRoute r].filter (fun rt => routeKey rt == k) = [] := by
          simp [routeKey_mkRoute, hk2]
        rw [h3]
        simp

/-- The registration loop refines the spec-side dedup: starting from seen-set
`seen`, it appends exactly the routes of the first-per-key records among
those whose key is unseen, in order. -/
theorem registerAux_eq_dedup (records : List SFRecord) (seen : List String)
    (router : List SFRoute) :
    registerAux seen router records
    = router ++ (specDedupFirst
        (records.filter (fun r => !(seen.contains (recKey r))))).map mkRoute := by
  induction records generalizing seen router with
  | nil => simp [registerAux, specDedupFirst]
  | cons r rest ih =>
    rw [registerAux]
    by_cases hseen : seen.contains (recKey r)
    · rw [if_pos hseen, ih, List.filter_cons]
      have hneg : (!(seen.contains (recKey r))) = false := by
        rw [hseen]
        rfl
      rw [hneg]
      simp
    · rw [if_neg hseen, ih, List.filter_cons]
      have hseen2 : (!(seen.contains (recKey r))) = true := by
        rw [Bool.eq_false_iff.mpr hseen]
        rfl
      rw [hseen2]
      have hfilters :
          rest.filter (fun r2 => !((recKey r :: seen).contains (recKey r2)))
          = (rest.filter (fun r2 => !(seen.contains (recKey r2)))).filter
              (fun r2 => !(recKey r2 == recKey r)) := by
        rw [List.filter_filter]
        apply List.filter_congr
        intro r2 _
        rw [List.contains_cons, Bool.not_or]
      rw [hfilters]
      rw [if_pos rfl, specDedupFirst]
      simp

/-- C5: the built router is exactly the first-registered record of each
`(method, path)` key, in registration order, each mounted with the handler
its own factory produces; hence for every key there is exactly one route
when some record carries it (the first such record's), and none otherwise. -/
theorem register_dedup_invariant (records : List SFRecord) (k : String) :
    register_server_functions records = (specDedupFirst records).map mkRoute
    ∧ (register_server_functions records).filter (fun rt => routeKey rt == k)
      = ((records.find? (fun r => recKey r == k)).map mkRoute).toList := by
  constructor
  · have h := registerAux_eq_dedup records [] []
    simpa [register_server_functions] using h
  · have h := registerAux_filter records [] [] k
    simpa [register_server_functions] using h

/-! ## C7 — render error mapping -/

/-- C7: an incremental failure maps to a 500 whose body is the error's
display text; an HTTP failure keeps its status and takes the supplied body,
else the status's standard reason phrase, else the generic string; 404's
standard phrase being `Not Found`. -/
theorem render_error_mapping (m : String) (status : Nat) (body : Option String) :
    renderErrorResponse (.incremental m) = { status := 500, headers := [], body := m }
    ∧ (renderErrorResponse (.httpError status body)).status = status
    ∧ (renderErrorResponse (.httpError status body)).body
        = (match body with
           | some b => b
           | none => (canonicalReason status).getD "An unknown error occurred")
    ∧ canonicalReason 404 = some "Not Found" := by
  refine ⟨rfl, rfl, ?_, rfl⟩
  cases body <;> rfl

/-! ## C8 / C10 — render success response assembly -/

theorem insertRH_not_mem (rh : HeaderMap) (acc : HeaderMap) (k : String)
    (h : k ∉ rh.map Prod.fst) :
    getAll (insertRendererHeaders acc rh) k = getAll acc k := by
  induction rh generalizing acc with
  | nil => rfl
  | cons e rest ih =>
    simp only [List.map_cons, List.mem_cons, not_or] at h
    cases hvs : e.2 with
    | nil =>
      rw [insertRendererHeaders, hvs]
      exact ih _ h.2
    | cons v vs =>
      rw [insertRendererHeaders, hvs, ih _ h.2]
      exact getAll_insertH_ne acc e.1 v k h.1

theorem insertRH_mem (rh : HeaderMap) (acc : HeaderMap) (k v : String)
    (vs : List String) (hnd : keysNodup rh) (hm : (k, v :: vs) ∈ rh) :
    getAll (insertRendererHeaders acc rh) k = [v] := by
  induction rh generalizing acc with
  | nil => cases hm
  | cons e rest ih =>
    have hnd2 : keysNodup rest := (List.nodup_cons.mp hnd).2
    rcases List.mem_cons.mp hm with hh | hh
    · subst hh
      have hk : k ∉ rest.map Prod.fst := (List.nodup_cons.mp hnd).1
      rw [insertRendererHeaders]
      exact (insertRH_not_mem rest _ k hk).trans (getAll_insertH_self _ _ _)
    · rw [insertRendererHeaders]
      cases hvs : e.2 with
      | nil => exact ih _ hnd2 hh
      | cons w ws => exact ih _ hnd2 hh

/-- C8: on a successful render outcome the response carries the renderer's
status and its byte stream verbatim as body; the freshness cache-control
value is written first and the renderer's headers are layered on top of it
and of the default `content-type` (the later `insert` wins for a duplicate
name): every renderer-supplied name holds exactly its first renderer value,
`content-type` falls back to `text/html; charset=utf-8` only when the
renderer did not set it, and `cache-control` falls back to the freshness
value only when the renderer did not set it. -/
theorem render_success_assembly (status : Nat) (rheaders : HeaderMap)
    (freshness : Option String) (body : String) (hnd : keysNodup rheaders) :
    (renderSuccess status rheaders freshness body).body = body
    ∧ (renderSuccess status rheaders freshness body).status = status
    ∧ (∀ k v vs, (k, v :: vs) ∈ rheaders →
        getAll (renderSuccess status rheaders freshness body).headers k = [v])
    ∧ ("content-type" ∉ rheaders.map Prod.fst →
        getAll (renderSuccess status rheaders freshness body).headers "content-type"
          = ["text/html; charset=utf-8"])
    ∧ ("cache-control" ∉ rheaders.map Prod.fst →
        getAll (renderSuccess status rheaders freshness body).headers "cache-control"
          = (match freshness with | some v => [v] | none => [])) := by
  refine ⟨rfl, rfl, ?_, ?_, ?_⟩
  · intro k v vs hm
    exact insertRH_mem rheaders _ k v vs hnd hm
  · intro h
    simp only [renderSuccess]
    rw [insertRH_not_mem rheaders _ _ h]
    cases freshness with
    | none => rw [getAll_insertH_self]
    | some v =>
      rw [getAll_insertH_ne _ _ _ _ (by decide), getAll_insertH_self]
  · intro h
    simp only [renderSuccess]
    rw [insertRH_not_mem rheaders _ _ h]
    cases freshness with
    | none =>
      rw [getAll_insertH_ne _ _ _ _ (by decide)]
      rfl
    | some v => rw [getAll_insertH_self]

/-- C8 (witness): renderer overrides `content-type` (its first value wins
over the default and over nothing else), the freshness cache-control
survives for untouched names, body and status pass through. -/
theorem render_success_assembly_witness :
    (renderSuccess 200 [("content-type", ["app/json"]), ("x", ["v1", "v2"])]
        (some "max-age=60") "PAGE").body = "PAGE"
    ∧ getAll (renderSuccess 200 [("content-type", ["app/json"]), ("x", ["v1", "v2"])]
        (some "max-age=60") "PAGE").headers "content-type" = ["app/json"]
    ∧ getAll (renderSuccess 200 [("content-type", ["app/json"]), ("x", ["v1", "v2"])]
        (some "max-age=60") "PAGE").headers "cache-control" = ["max-age=60"] := by
  have h := render_success_assembly 200
    [("content-type", ["app/json"]), ("x", ["v1", "v2"])] (some "max-age=60") "PAGE"
    (by decide)
  exact ⟨h.1, h.2.2.1 "content-type" "app/json" [] (by decide),
    h.2.2.2.2 (by decide)⟩

/-- C10: when the renderer's header map holds several values for one name,
only the first value of that name reaches the response (the `None`-keyed
extra values are skipped and `insert` replaces), so the response carries
exactly one value for every renderer-supplied name. -/
theorem render_first_value_only (status : Nat) (rheaders : HeaderMap)
    (freshness : Option String) (body : String) (k v : String) (vs : List String)
    (hnd : keysNodup rheaders) (hm : (k, v :: vs) ∈ rheaders) :
    getAll (renderSuccess status rheaders freshness body).headers k = [v]
    ∧ (getAll (renderSuccess status rheaders freshness body).headers k).length = 1 := by
  have h := insertRH_mem rheaders
    (match freshness with
     | some w => insertH (insertH [] "content-type" "text/html; charset=utf-8")
         "cache-control" w
     | none => insertH [] "content-type" "text/html; charset=utf-8")
    k v vs hnd hm
  constructor
  · exact h
  · simp only [renderSuccess]
    rw [h]
    rfl

/-- C10 (witness): renderer name `x` with values `v1, v2` ends up as the
single value `v1`. -/
theorem render_first_value_only_witness :
    getAll (renderSuccess 200 [("x", ["v1", "v2"])] none "B").headers "x" = ["v1"] := by
  exact (render_first_value_only 200 [("x", ["v1", "v2"])] none "B" "x" "v1" ["v2"]
    (by decide) (by decide)).1

end DioxusCF
